import Mathlib

/-!
# abot: the crowd-training handlers of `handlers.go`

A shallow embedding of the training endpoints (`handlerAPISentence`,
`handlerAPITrainSentence`), of `jsonError` and of `validatePhone`, followed by
the properties established about them.

Conventions of the embedding:

* the `trainings` table is a list of rows, in the order a sequential scan
  yields them; handlers take the store and give back the store they leave;
* a Go `error` is a value of `GoError`; `nil` is `none`;
* everything the handlers obtain from outside `handlers.go` (request binding,
  the classifier, the consensus check, the response writer, failures of the
  database connection) is a field of an environment record, so that every
  theorem holds for every behaviour of these collaborators;
* `RANDOM()` is a double `mant * 2^(-exp)`, and the offset of the sampling
  query is computed in double precision, rounding to nearest, ties to even.
-/

namespace Abot

/-! ## Errors -/

/-- A Go error value. `sql.ErrNoRows` is a package-level sentinel that the code
compares by identity (`err != sql.ErrNoRows`), so it has its own constructor;
every other error is known by its message. -/
inductive GoError where
  | ErrNoRows
  | other (msg : String)
deriving DecidableEq

/-- The method `err.Error()`: the message of an error. -/
def GoError.Error : GoError → String
  | .ErrNoRows => "sql: no rows in result set"
  | .other msg => msg

/-- The library function `errors.New`. -/
def errorsNew (msg : String) : GoError := .other msg

/-- Source lines 392-394: the opening text of a JSON object with the field
Msg, then `err.Error()` as it is, then the closing quote and brace, joined by
plain string concatenation and wrapped by `errors.New`. -/
def jsonError (err : GoError) : GoError :=
  errorsNew ("\x7b\"Msg\":\"" ++ err.Error ++ "\"\x7d")

/-! ## The training store -/

/-- One row of the table `trainings(id, foreignid, sentence, maxassignments,
trainedcount)`. -/
structure Training where
  id : Int
  foreignid : String
  sentence : String
  maxassignments : Int
  trainedcount : Int
deriving DecidableEq

/-- The table `trainings`, in scan order. -/
abbrev Store := List Training

/-! ## `handlerAPISentence` (source lines 91-122) -/

/-- The anonymous struct `sent` of `handlerAPISentence`. -/
structure Sent where
  ID : Int
  ForeignID : String
  Sentence : String
  MaxAssignments : Int
deriving DecidableEq

/-- The Go zero value of `sent`, as left by `var sent struct ...`. -/
def Sent.zero : Sent := ⟨0, "", "", 0⟩

/-- The column list `SELECT id, foreignid, sentence, maxassignments` scanned
into `sent`. -/
def scanRow (t : Training) : Sent :=
  ⟨t.id, t.foreignid, t.sentence, t.maxassignments⟩

/-- The value of one call of `RANDOM()`, a double: `mant * 2^(-exp)`. Every
double `r` with `0 <= r < 1` has this form with `mant < 2^53` and
`53 <= exp <= 1074`, which is `Draw.inRange`. -/
structure Draw where
  mant : Nat
  exp : Nat
deriving DecidableEq

/-- The range of `RANDOM()`: the doubles `0 <= r < 1`. -/
def Draw.inRange (r : Draw) : Prop :=
  r.mant < 2 ^ 53 ∧ 53 ≤ r.exp ∧ r.exp ≤ 1074

instance (r : Draw) : Decidable r.inRange := by
  unfold Draw.inRange; infer_instance

/-- The number of halvings that bring `a` below `2^53`, with `fuel` steps at
most. -/
def shiftFor : Nat → Nat → Nat
  | 0, _ => 0
  | fuel + 1, a => if a < 2 ^ 53 then 0 else shiftFor fuel (a / 2) + 1

/-- The number of low bits a double cannot keep of the integer `a`: zero when
`a < 2^53`, else the `k` with `2^(52+k) <= a < 2^(53+k)`. -/
def roundShift (a : Nat) : Nat := shiftFor a a

/-- The integer `a` rounded to the 53 significant bits of a double, to
nearest, ties to even (the IEEE 754 default): the result of the cast of a
bigint to double precision and, on the numerator, of a double product. The
exponent range of a double plays no part here: a count is a bigint, below
`2^63`, and the product of a draw `mant * 2^(-exp)` with `exp <= 1074` and a
count is exact below `2^53 * 2^(-exp)` and a normal number above. -/
def roundDouble (a : Nat) : Nat :=
  if 2 ^ roundShift a < 2 * (a % 2 ^ roundShift a) ∨
      (2 ^ roundShift a = 2 * (a % 2 ^ roundShift a) ∧
        (a / 2 ^ roundShift a) % 2 = 1) then
    (a / 2 ^ roundShift a + 1) * 2 ^ roundShift a
  else
    a / 2 ^ roundShift a * 2 ^ roundShift a

/-- The expression `FLOOR(RANDOM() * count)` in double precision, as
PostgreSQL evaluates it: the bigint count is cast to a double, the product
`mant * 2^(-exp) * count` is rounded to a double, and the floor of that double
is the offset. -/
def floorRandomTimes (r : Draw) (count : Nat) : Nat :=
  roundDouble (r.mant * roundDouble count) / 2 ^ r.exp

/-- The clause `WHERE trainedcount<3` (no filter) or
`WHERE trainedcount<3 AND id=$1` (filter). The bound is the literal 3 of the
query text; the column `maxassignments` is not consulted. -/
def whereClause (filter : Option Int) (t : Training) : Bool :=
  decide (t.trainedcount < 3) &&
    (match filter with
     | none => true
     | some i => decide (t.id = i))

/-- The rows matching the WHERE clause; their number is the inner
`SELECT COUNT(*)`. -/
def matching (store : Store) (filter : Option Int) : List Training :=
  store.filter (whereClause filter)

/-- The rows of
`SELECT ... WHERE w OFFSET FLOOR(RANDOM() * (SELECT COUNT(*) ... WHERE w))`:
the matching rows after the first `offset` of them are skipped. -/
def selectRows (store : Store) (filter : Option Int) (r : Draw) : List Training :=
  (matching store filter).drop (floorRandomTimes r (matching store filter).length)

/-- What `handlerAPISentence` obtains from outside `handlers.go`. -/
structure SentenceEnv where
  /-- The database reading the text parameter `$1` as the integer compared
  with `id`; an error when the text is no integer. -/
  idArg : String → Except GoError Int
  /-- A failure of `db.Get` that does not come from the query itself
  (connection lost, ...), if any. -/
  getErr : Option GoError
  /-- The result of `c.JSON` writing the response. -/
  jsonErr : Option GoError

/-- The filter a query argument list stands for: no argument, no filter. -/
def bindArg (env : SentenceEnv) : Option String → Except GoError (Option Int)
  | none => .ok none
  | some s =>
    match env.idArg s with
    | .ok i => .ok (some i)
    | .error e => .error e

/-- The result set of the query behind `db.Get`: an error when the call fails
before any row is produced, else the first row of the result, if there is
one. -/
def queryRow (env : SentenceEnv) (store : Store) (arg : Option String) (r : Draw) :
    Except GoError (Option Training) :=
  match env.getErr with
  | some e => .error e
  | none =>
    match bindArg env arg with
    | .error e => .error e
    | .ok filter => .ok (selectRows store filter r).head?

/-- The call `db.Get(&sent, q, args...)`: the first row of the result is
scanned into `sent`; with no row the error is `sql.ErrNoRows` and `sent` keeps
its zero value. A SELECT leaves the table as it is. -/
def dbGet (env : SentenceEnv) (store : Store) (arg : Option String) (r : Draw) :
    Store × Sent × Option GoError :=
  match queryRow env store arg r with
  | .error e => (store, Sent.zero, some e)
  | .ok (some t) => (store, scanRow t, none)
  | .ok none => (store, Sent.zero, some GoError.ErrNoRows)

/-- The outcome of `handlerAPISentence`: the store it leaves, the error it
returns, and the status and value it handed to `c.JSON`, if it got there. -/
structure SentenceResult where
  store : Store
  err : Option GoError
  response : Option (Nat × Sent)
deriving DecidableEq

/-- The constant `http.StatusOK`. -/
def StatusOK : Nat := 200

/-- Source lines 91-122. `idQuery` is `c.Query("id")`, the empty string when
the parameter is absent. -/
def handlerAPISentence (env : SentenceEnv) (store : Store) (idQuery : String)
    (r : Draw) : SentenceResult :=
  let got :=
    if idQuery.length > 0 then dbGet env store (some idQuery) r
    else dbGet env store none r
  let err := got.2.2
  if err ≠ none ∧ err ≠ some GoError.ErrNoRows then
    ⟨got.1, err, none⟩
  else
    ⟨got.1, env.jsonErr, some (StatusOK, got.2.1)⟩

/-- The argument list the handler passes to `db.Get` for a value of
`c.Query("id")`. -/
def queryArg (idQuery : String) : Option String :=
  if idQuery.length > 0 then some idQuery else none

/-- The item a call of `handlerAPISentence` returns: the row its `db.Get`
scanned into `sent`, if there was one. -/
def sampled (env : SentenceEnv) (store : Store) (idQuery : String) (r : Draw) :
    Option Training :=
  match queryRow env store (queryArg idQuery) r with
  | .ok (some t) => some t
  | _ => none

/-! ## `handlerAPITrainSentence` (source lines 124-151) -/

/-- Modelled from the spec: the type `TrainingData` is declared outside
`handlers.go`. Section 6 gives the body of `PUT /api/sentence.json` as an
object with the fields `ID` (int) and `Sentence` (string), the two fields the
handler reads. -/
structure TrainingData where
  ID : Int
  Sentence : String
deriving DecidableEq

/-- A call the handler makes to a collaborator, recorded in program order. -/
inductive Call where
  | train (sentence : String)
  | exec (id : Int)
  | rowsAffected
  | checkConsensus (data : TrainingData)
  | json (status : Nat)
deriving DecidableEq

/-- What `handlerAPITrainSentence` obtains from outside `handlers.go`. -/
structure TrainEnv where
  /-- The result of `c.Bind(&data)`. -/
  bind : Except GoError TrainingData
  /-- The error `train` returns for a sentence, if any. -/
  trainErr : String → Option GoError
  /-- A failure of `db.Exec`, if any; the statement then changes nothing. -/
  execErr : Option GoError
  /-- A failure of `res.RowsAffected()`, if any. -/
  rowsAffectedErr : Option GoError
  /-- The error `checkConsensus` returns for a submission, if any. -/
  consensusErr : TrainingData → Option GoError
  /-- The result of `c.JSON` writing the response. -/
  jsonErr : Option GoError

/-- Modelled from the spec: the function `train` is declared outside
`handlers.go`. By sections 3 and 4.4 it updates the frequency tables of the
classifier, which are no part of the training store, so the call
`train(bayes, data.Sentence)` leaves the store as it is; the error it returns
is given by the environment. -/
def train (env : TrainEnv) (store : Store) (sentence : String) :
    Store × Option GoError :=
  (store, env.trainErr sentence)

/-- Modelled from the spec: the function `checkConsensus` is declared outside
`handlers.go`. By section 3 the Consensus Evaluator holds no state of its own
and a training item is mutated only by the submission handler's counter
increment, so the call `checkConsensus(&data)` leaves the store as it is; the
error it returns is given by the environment. -/
def checkConsensus (env : TrainEnv) (store : Store) (data : TrainingData) :
    Store × Option GoError :=
  (store, env.consensusErr data)

/-- The assignment `SET trainedcount=trainedcount+1` on one row. -/
def incrTrainedcount (t : Training) : Training :=
  { t with trainedcount := t.trainedcount + 1 }

/-- The table after `UPDATE trainings SET trainedcount=trainedcount+1 WHERE
id=$1`: every row whose id is `$1` is incremented. The WHERE clause names the
id only. -/
def updateRows (id : Int) (store : Store) : Store :=
  store.map (fun t => if t.id = id then incrTrainedcount t else t)

/-- The call `db.Exec(q, data.ID)` with the UPDATE statement: the table is
updated and the result carries the number of rows affected, the rows whose id
is `$1`. -/
def dbExec (env : TrainEnv) (store : Store) (id : Int) :
    Store × Nat × Option GoError :=
  match env.execErr with
  | some e => (store, 0, some e)
  | none =>
    (updateRows id store,
     (store.filter (fun t => decide (t.id = id))).length,
     none)

/-- The outcome of `handlerAPITrainSentence`: the store it leaves, the error
it returns, the calls it made, and the status handed to `c.JSON` (with a nil
body), if it got there. -/
structure TrainResult where
  store : Store
  err : Option GoError
  calls : List Call
  response : Option Nat
deriving DecidableEq

/-- Source lines 124-151, with the store threaded through the calls in
program order. -/
def handlerAPITrainSentence (env : TrainEnv) (store : Store) : TrainResult :=
  match env.bind with
  | .error e => ⟨store, some e, [], none⟩
  | .ok data =>
    let trained := train env store data.Sentence
    match trained.2 with
    | some e => ⟨trained.1, some e, [.train data.Sentence], none⟩
    | none =>
      let res := dbExec env trained.1 data.ID
      match res.2.2 with
      | some e => ⟨res.1, some e, [.train data.Sentence, .exec data.ID], none⟩
      | none =>
        match env.rowsAffectedErr with
        | some e =>
          ⟨res.1, some e, [.train data.Sentence, .exec data.ID, .rowsAffected], none⟩
        | none =>
          if res.2.1 = 0 then
            ⟨res.1, some GoError.ErrNoRows,
              [.train data.Sentence, .exec data.ID, .rowsAffected], none⟩
          else
            let checked := checkConsensus env res.1 data
            match checked.2 with
            | some e =>
              ⟨checked.1, some e,
                [.train data.Sentence, .exec data.ID, .rowsAffected,
                 .checkConsensus data], none⟩
            | none =>
              ⟨checked.1, env.jsonErr,
                [.train data.Sentence, .exec data.ID, .rowsAffected,
                 .checkConsensus data, .json StatusOK], some StatusOK⟩

/-- A finite sequence of submissions, one after the other: the store left at
the end and the error each submission returned. -/
def submitAll : List TrainEnv → Store → Store × List (Option GoError)
  | [], store => (store, [])
  | env :: rest, store =>
    let r := handlerAPITrainSentence env store
    let rs := submitAll rest r.store
    (rs.1, r.err :: rs.2)

/-- Whether a submission runs the UPDATE on the rows of the given id: its body
is bound with that ID, `train` returns no error and `db.Exec` does not fail. -/
def reachesUpdate (env : TrainEnv) (id : Int) : Bool :=
  match env.bind with
  | .ok data =>
    decide (id = data.ID) && (env.trainErr data.Sentence).isNone && env.execErr.isNone
  | .error _ => false

/-- The number of submissions of a sequence that run the UPDATE on the rows of
the given id. -/
def updatesFor (id : Int) (envs : List TrainEnv) : Nat :=
  (envs.filter (fun env => reachesUpdate env id)).length

/-- A row with its counter raised by `k`. -/
def addTrained (k : Nat) (t : Training) : Training :=
  { t with trainedcount := t.trainedcount + k }

/-- The invariant of section 3 on a store:
`0 <= trainedCount <= maxAssignments` for every item. -/
def CounterBound (store : Store) : Prop :=
  ∀ t ∈ store, 0 ≤ t.trainedcount ∧ t.trainedcount ≤ t.maxassignments

instance (store : Store) : Decidable (CounterBound store) := by
  unfold CounterBound; infer_instance

/-- A call of `checkConsensus`, whatever its argument. -/
def Call.isCheckConsensus : Call → Bool
  | .checkConsensus _ => true
  | _ => false

/-- A call of `db.Exec`, whatever its argument. -/
def Call.isExec : Call → Bool
  | .exec _ => true
  | _ => false

/-! ## `validatePhone` (source lines 396-411) -/

/-- A Go string: a sequence of bytes. `len(s)` is the number of bytes and
`s[i]` the byte at index `i`. -/
abbrev GoString := List UInt8

/-- The index expression `s[i]`; `none` is the run-time panic of an index out
of range. -/
def byteAt (s : GoString) (i : Nat) : Option UInt8 := s[i]?

/-- The first message of `validatePhone`. -/
def msgValidNumber : String :=
  "Your phone must be a valid U.S. number with the area code."

/-- The second message of `validatePhone`, used by both country tests. -/
def msgOnlyUS : String :=
  "Sorry, Ava only serves U.S. customers for now."

/-- The condition `len(s) == 11 && s[0] != '1'`, evaluated left to right with
the short circuit of `&&`. -/
def cond11 (s : GoString) : Option Bool :=
  if s.length = 11 then
    (byteAt s 0).bind fun b0 => some (b0 != '1'.toUInt8)
  else some false

/-- The condition `len(s) == 12 && s[0] == '+' && s[1] != '1'`, evaluated left
to right with the short circuit of `&&`. -/
def cond12 (s : GoString) : Option Bool :=
  if s.length = 12 then
    (byteAt s 0).bind fun b0 =>
      if b0 = '+'.toUInt8 then
        (byteAt s 1).bind fun b1 => some (b1 != '1'.toUInt8)
      else some false
  else some false

/-- Source lines 396-411. `phoneRegex` is a package variable declared outside
`handlers.go`; `phoneRegex.MatchString` is a parameter. The outer `none` is a
panic, the inner `none` is the `nil` error. -/
def validatePhone (phoneRegex : GoString → Bool) (s : GoString) :
    Option (Option GoError) :=
  if s.length < 10 || s.length > 20 || !phoneRegex s then
    some (some (errorsNew msgValidNumber))
  else
    (cond11 s).bind fun c11 =>
      if c11 then some (some (errorsNew msgOnlyUS))
      else
        (cond12 s).bind fun c12 =>
          if c12 then some (some (errorsNew msgOnlyUS))
          else some none

/-! ## Reading back the text `jsonError` builds -/

/-- JSON insignificant whitespace (RFC 8259, section 2). -/
def isJsonWs (c : Char) : Bool :=
  c = ' ' || c = '\t' || c = '\n' || c = '\r'

/-- Drop leading JSON whitespace. -/
def skipWs : List Char → List Char
  | [] => []
  | c :: cs => if isJsonWs c then skipWs cs else c :: cs

/-- The value of a hexadecimal digit. -/
def hexDigit (c : Char) : Option Nat :=
  if '0' ≤ c ∧ c ≤ '9' then some (c.toNat - '0'.toNat)
  else if 'a' ≤ c ∧ c ≤ 'f' then some (c.toNat - 'a'.toNat + 10)
  else if 'A' ≤ c ∧ c ≤ 'F' then some (c.toNat - 'A'.toNat + 10)
  else none

/-- The character a two-character escape stands for (RFC 8259, section 7). -/
def simpleEscape (c : Char) : Option Char :=
  if c = '"' then some '"'
  else if c = '\\' then some '\\'
  else if c = '/' then some '/'
  else if c = 'b' then some (Char.ofNat 8)
  else if c = 'f' then some (Char.ofNat 12)
  else if c = 'n' then some '\n'
  else if c = 'r' then some '\r'
  else if c = 't' then some '\t'
  else none

/-- Where the reader of a JSON string stands: in plain text, right after a
backslash, or inside a unicode escape with `left` hex digits to read. -/
inductive StrState where
  | plain
  | escaped
  | hex (left : Nat) (acc : Nat)

/-- Read a JSON string after its opening quote: the decoded characters and
the input that follows the closing quote; `none` when the text is no JSON
string. -/
def readString : StrState → List Char → Option (List Char × List Char)
  | _, [] => none
  | .plain, c :: cs =>
    if c = '"' then some ([], cs)
    else if c = '\\' then readString .escaped cs
    else if c.toNat < 32 then none
    else (readString .plain cs).map fun p => (c :: p.1, p.2)
  | .escaped, c :: cs =>
    if c = 'u' then readString (.hex 3 0) cs
    else
      match simpleEscape c with
      | none => none
      | some d => (readString .plain cs).map fun p => (d :: p.1, p.2)
  | .hex left acc, c :: cs =>
    match hexDigit c with
    | none => none
    | some v =>
      match left with
      | 0 => (readString .plain cs).map fun p => (Char.ofNat (acc * 16 + v) :: p.1, p.2)
      | k + 1 => readString (.hex k (acc * 16 + v)) cs

/-- Read one expected character, after optional whitespace. -/
def expectChar (c : Char) (input : List Char) : Option (List Char) :=
  match skipWs input with
  | d :: rest => if d = c then some rest else none
  | [] => none

/-- Decode a JSON text that is an object with exactly one member, named Msg,
whose value is a string: the decoded value, or `none` when the text is not
such a JSON object. -/
def decodeMsgObject (text : String) : Option String :=
  (expectChar '\x7b' text.data).bind fun afterBrace =>
  (expectChar '"' afterBrace).bind fun inKey =>
  (readString .plain inKey).bind fun key =>
  if key.1 ≠ "Msg".data then none else
  (expectChar ':' key.2).bind fun afterColon =>
  (expectChar '"' afterColon).bind fun inValue =>
  (readString .plain inValue).bind fun value =>
  (expectChar '\x7d' value.2).bind fun afterClose =>
  if skipWs afterClose = [] then some (String.mk value.1) else none

/-! ## Concrete inputs -/

/-- An environment of `handlerAPITrainSentence` in which every collaborator
succeeds, for the request body with the given ID and Sentence. -/
def cleanEnv (id : Int) (sentence : String) : TrainEnv :=
  { bind := .ok ⟨id, sentence⟩
    trainErr := fun _ => none
    execErr := none
    rowsAffectedErr := none
    consensusErr := fun _ => none
    jsonErr := none }

/-- As `cleanEnv`, but `checkConsensus` returns an error. -/
def consensusFailsEnv (id : Int) (sentence : String) : TrainEnv :=
  { cleanEnv id sentence with
    consensusErr := fun _ => some (errorsNew "consensus check failed") }

/-- As `cleanEnv`, but `train` returns an error. -/
def trainFailsEnv (id : Int) (sentence : String) : TrainEnv :=
  { cleanEnv id sentence with
    trainErr := fun _ => some (errorsNew "classifier is not ready") }

/-- An environment of `handlerAPISentence` in which the database and the
response writer do not fail and the id parameter reads as `id`. -/
def cleanSentenceEnv (id : Int) : SentenceEnv :=
  { idArg := fun _ => .ok id
    getErr := none
    jsonErr := none }

/-- A store of two items; item 1 has used its three assignments. -/
def storeFullAndOpen : Store :=
  [⟨1, "ctx-1", "book a flight to Boston", 3, 3⟩,
   ⟨2, "ctx-2", "cancel my order", 3, 1⟩]

/-- A store whose only item has used its three assignments. -/
def storeFull : Store := [⟨5, "ctx-5", "order a pizza", 3, 3⟩]

/-- A store whose only item is fresh: quota 3, no submission yet. -/
def storeFresh : Store := [⟨5, "ctx-5", "order a pizza", 3, 0⟩]

/-- A store whose only item has a quota of two assignments and has used
both. -/
def storeQuotaTwo : Store := [⟨9, "ctx-9", "what is the weather", 2, 2⟩]

/-- A store whose only row has the zero value in every column. -/
def storeAllZero : Store := [⟨0, "", "", 0, 0⟩]

/-- A store of eight items, seven of which have `trainedcount < 3`. -/
def sevenRows : Store :=
  [⟨11, "ctx-11", "book a flight to Boston", 3, 0⟩,
   ⟨12, "ctx-12", "cancel my order", 3, 1⟩,
   ⟨13, "ctx-13", "order a pizza", 3, 3⟩,
   ⟨14, "ctx-14", "what is the weather", 3, 2⟩,
   ⟨15, "ctx-15", "play some jazz", 3, 2⟩,
   ⟨16, "ctx-16", "turn on the lights", 3, 0⟩,
   ⟨17, "ctx-17", "set an alarm", 3, 1⟩,
   ⟨18, "ctx-18", "call a taxi", 3, 0⟩]

/-- The PostgreSQL message of source line 258, which holds double quotes. -/
def duplicateKeyMsg : String :=
  "pq: duplicate key value violates unique constraint \"users_email_key\""

/-! ## Properties of `handlerAPISentence` -/

/-- The handler, case by case on what its query produced. -/
theorem handlerAPISentence_cases (env : SentenceEnv) (store : Store)
    (idQuery : String) (r : Draw) :
    handlerAPISentence env store idQuery r =
      match queryRow env store (queryArg idQuery) r with
      | .error e =>
        if e = GoError.ErrNoRows then ⟨store, env.jsonErr, some (StatusOK, Sent.zero)⟩
        else ⟨store, some e, none⟩
      | .ok (some t) => ⟨store, env.jsonErr, some (StatusOK, scanRow t)⟩
      | .ok none => ⟨store, env.jsonErr, some (StatusOK, Sent.zero)⟩ := by
  unfold handlerAPISentence queryArg dbGet
  by_cases hq : idQuery.length > 0
  · simp only [hq, if_true]
    cases hrow : queryRow env store (some idQuery) r with
    | error e =>
      by_cases he : e = GoError.ErrNoRows
      · simp [he]
      · simp [he]
    | ok o =>
      cases o with
      | none => simp
      | some t => simp
  · simp only [hq, if_false]
    cases hrow : queryRow env store none r with
    | error e =>
      by_cases he : e = GoError.ErrNoRows
      · simp [he]
      · simp [he]
    | ok o =>
      cases o with
      | none => simp
      | some t => simp

/-- The first row of the query result is a row of the store that satisfies
the WHERE clause. -/
theorem selectRows_head_mem (store : Store) (filter : Option Int) (r : Draw)
    (t : Training) (h : (selectRows store filter r).head? = some t) :
    t ∈ store ∧ whereClause filter t = true := by
  have hmem : t ∈ selectRows store filter r := List.mem_of_mem_head? h
  have hmatch : t ∈ matching store filter := List.mem_of_mem_drop hmem
  exact List.mem_filter.mp hmatch

/-- The shift found with enough fuel: none below 2^53, else the one that leaves
53 bits. -/
theorem shiftFor_spec (fuel : Nat) : ∀ a, a ≤ fuel →
    (a < 2 ^ 53 → shiftFor fuel a = 0) ∧
    (2 ^ 53 ≤ a → 1 ≤ shiftFor fuel a ∧ 2 ^ 52 * 2 ^ shiftFor fuel a ≤ a ∧
      a < 2 ^ 53 * 2 ^ shiftFor fuel a) := by
  induction fuel with
  | zero =>
    intro a ha
    have h0 : a = 0 := by omega
    subst h0
    constructor
    · intro _; rfl
    · intro h; norm_num at h
  | succ f ih =>
    intro a ha
    constructor
    · intro hlt
      simp only [shiftFor, hlt, if_true]
    · intro hge
      have hnlt : ¬ a < 2 ^ 53 := by omega
      have hhalf : a / 2 ≤ f := by omega
      obtain ⟨ih1, ih2⟩ := ih (a / 2) hhalf
      simp only [shiftFor, hnlt, if_false]
      by_cases hsmall : a / 2 < 2 ^ 53
      · rw [ih1 hsmall]
        refine ⟨by omega, ?_, ?_⟩
        · norm_num
          norm_num at hge
          exact hge
        · norm_num
          norm_num at hsmall
          omega
      · obtain ⟨h1, h2, h3⟩ := ih2 (by omega)
        have hp : 2 ^ (shiftFor f (a / 2) + 1) = 2 * 2 ^ shiftFor f (a / 2) := by ring
        rw [hp]
        generalize 2 ^ shiftFor f (a / 2) = T at h2 h3
        refine ⟨by omega, by omega, by omega⟩

/-- The shift of `roundDouble`: none below 2^53, else the one that leaves 53
bits. -/
theorem roundShift_spec (a : Nat) :
    (a < 2 ^ 53 → roundShift a = 0) ∧
    (2 ^ 53 ≤ a → 1 ≤ roundShift a ∧ 2 ^ 52 * 2 ^ roundShift a ≤ a ∧
      a < 2 ^ 53 * 2 ^ roundShift a) :=
  shiftFor_spec a a (Nat.le_refl a)

/-- A number below 2^53 is a double: rounding leaves it as it is. -/
theorem roundDouble_of_lt (a : Nat) (h : a < 2 ^ 53) : roundDouble a = a := by
  unfold roundDouble
  rw [(roundShift_spec a).1 h]
  simp [Nat.mod_one]

/-- Rounding moves a number up by at most half of the last kept bit. -/
theorem roundDouble_le (a : Nat) :
    2 * roundDouble a ≤ 2 * a + 2 ^ roundShift a := by
  unfold roundDouble
  have hdm := Nat.div_add_mod a (2 ^ roundShift a)
  have hpos : 0 < 2 ^ roundShift a := Nat.pow_pos (by norm_num)
  have hmod := Nat.mod_lt a hpos
  generalize 2 ^ roundShift a = T at *
  generalize a / T = q at *
  generalize a % T = rem at *
  have hcomm : T * q = q * T := Nat.mul_comm T q
  split
  · rename_i hup
    have : (q + 1) * T = q * T + T := by ring
    rcases hup with h | ⟨h, _⟩ <;> omega
  · omega

/-- Rounding moves a number down by at most half of the last kept bit, and the
result is a multiple of that bit: `roundDouble` rounds to nearest. -/
theorem roundDouble_ge (a : Nat) :
    2 * a ≤ 2 * roundDouble a + 2 ^ roundShift a ∧ 2 ^ roundShift a ∣ roundDouble a := by
  unfold roundDouble
  have hdm := Nat.div_add_mod a (2 ^ roundShift a)
  have hpos : 0 < 2 ^ roundShift a := Nat.pow_pos (by norm_num)
  have hmod := Nat.mod_lt a hpos
  split
  · rename_i hup
    refine ⟨?_, Dvd.intro_left _ rfl⟩
    generalize 2 ^ roundShift a = T at *
    generalize a / T = q at *
    generalize a % T = rem at *
    have hcomm : T * q = q * T := Nat.mul_comm T q
    have : (q + 1) * T = q * T + T := by ring
    omega
  · rename_i hdown
    refine ⟨?_, Dvd.intro_left _ rfl⟩
    generalize 2 ^ roundShift a = T at *
    generalize a / T = q at *
    generalize a % T = rem at *
    have hcomm : T * q = q * T := Nat.mul_comm T q
    have hle : ¬ T < 2 * rem := fun hlt => hdown (Or.inl hlt)
    omega

/-- Rounding at work: ties go to the even neighbour, down at `2^53 + 1` and
up at `2^53 + 3` and at `2^54 - 1`; the double product of
2573485501354569 / 2^52 and 7 is 4.0, although the exact product is below 4. -/
theorem roundDouble_ties :
    roundDouble 9007199254740993 = 9007199254740992 ∧
    roundDouble 9007199254740995 = 9007199254740996 ∧
    roundDouble 18014398509481983 = 18014398509481984 ∧
    floorRandomTimes ⟨5146971002709138, 53⟩ 7 = 4 ∧
    5146971002709138 * 7 / 2 ^ 53 = 3 := by
  decide

/-- The relative error of rounding up is at most 2^-53. -/
theorem roundDouble_mul_le (a : Nat) :
    roundDouble a * 2 ^ 53 ≤ a * (2 ^ 53 + 1) := by
  by_cases h : a < 2 ^ 53
  · rw [roundDouble_of_lt a h]
    omega
  · have hle := roundDouble_le a
    obtain ⟨_, h2, _⟩ := (roundShift_spec a).2 (by omega)
    generalize 2 ^ roundShift a = T at *
    generalize roundDouble a = R at *
    omega

/-- Rounding either does not move a number up, or moves it up to the next
multiple of the last kept bit, which lies strictly above the 53-bit number it
was cut to. -/
theorem roundDouble_cases (n : Nat) :
    roundDouble n ≤ n ∨
      ∃ q k, roundDouble n = (q + 1) * 2 ^ k ∧ q * 2 ^ k < n ∧
        2 ^ 52 ≤ q ∧ q < 2 ^ 53 := by
  by_cases h : n < 2 ^ 53
  · left
    rw [roundDouble_of_lt n h]
  · obtain ⟨_, h2, h3⟩ := (roundShift_spec n).2 (by omega)
    have hpos : 0 < 2 ^ roundShift n := Nat.pow_pos (by norm_num)
    have hdm := Nat.div_add_mod n (2 ^ roundShift n)
    have hq1 : 2 ^ 52 ≤ n / 2 ^ roundShift n := (Nat.le_div_iff_mul_le hpos).mpr h2
    have hq2 : n / 2 ^ roundShift n < 2 ^ 53 := (Nat.div_lt_iff_lt_mul hpos).mpr h3
    unfold roundDouble
    split
    · rename_i hup
      right
      refine ⟨n / 2 ^ roundShift n, roundShift n, rfl, ?_, hq1, hq2⟩
      generalize 2 ^ roundShift n = T at *
      generalize n / T = q at *
      generalize n % T = rem at *
      have hcomm : T * q = q * T := Nat.mul_comm T q
      rcases hup with hlt | ⟨heq, _⟩ <;> omega
    · left
      exact Nat.div_mul_le_self n _

/-- The product of the largest 53-bit number and a number just rounded up
rounds down to 2^53 times the number before rounding up. -/
theorem roundDouble_top (q k : Nat) (hq1 : 2 ^ 52 ≤ q) (hq2 : q < 2 ^ 53) :
    roundDouble ((2 ^ 53 - 1) * ((q + 1) * 2 ^ k)) = 2 ^ 53 * (q * 2 ^ k) := by
  have hTpos : 0 < 2 ^ k := Nat.pow_pos (by norm_num)
  have hqT1 : 2 ^ 52 * 2 ^ k ≤ q * 2 ^ k := Nat.mul_le_mul_right _ hq1
  have hqT2 : (q + 1) * 2 ^ k ≤ 2 ^ 53 * 2 ^ k := Nat.mul_le_mul_right _ (by omega)
  have hexp : (q + 1) * 2 ^ k = q * 2 ^ k + 2 ^ k := by ring
  have ha : (2 ^ 53 - 1) * ((q + 1) * 2 ^ k)
      = (2 ^ 53 - 1) * (q * 2 ^ k) + (2 ^ 53 - 1) * 2 ^ k := by
    rw [hexp, Nat.mul_add]
  have hlow : 2 ^ 105 * 2 ^ k ≤ (2 ^ 53 - 1) * ((q + 1) * 2 ^ k) := by
    rw [ha]
    generalize 2 ^ k = T at *
    generalize q * T = qT at *
    omega
  have hhigh : (2 ^ 53 - 1) * ((q + 1) * 2 ^ k) < 2 ^ 106 * 2 ^ k := by
    generalize 2 ^ k = T at *
    generalize (q + 1) * T = qT at *
    omega
  have hge : 2 ^ 53 ≤ (2 ^ 53 - 1) * ((q + 1) * 2 ^ k) := by
    have : 2 ^ 105 * 1 ≤ 2 ^ 105 * 2 ^ k := Nat.mul_le_mul_left _ hTpos
    omega
  obtain ⟨_, h2, h3⟩ := (roundShift_spec ((2 ^ 53 - 1) * ((q + 1) * 2 ^ k))).2 hge
  have hshift : roundShift ((2 ^ 53 - 1) * ((q + 1) * 2 ^ k)) = 53 + k := by
    have e1 : 2 ^ (52 + roundShift ((2 ^ 53 - 1) * ((q + 1) * 2 ^ k))) < 2 ^ (106 + k) := by
      rw [pow_add, pow_add]
      exact lt_of_le_of_lt h2 hhigh
    have e2 : 2 ^ (105 + k) < 2 ^ (53 + roundShift ((2 ^ 53 - 1) * ((q + 1) * 2 ^ k))) := by
      rw [pow_add, pow_add]
      exact lt_of_le_of_lt hlow h3
    have e1' := (Nat.pow_lt_pow_iff_right (by norm_num : 1 < 2)).mp e1
    have e2' := (Nat.pow_lt_pow_iff_right (by norm_num : 1 < 2)).mp e2
    omega
  have hpow : 2 ^ (53 + k) = 2 ^ 53 * 2 ^ k := pow_add 2 53 k
  have hdm : (2 ^ 53 - 1) * ((q + 1) * 2 ^ k) / (2 ^ 53 * 2 ^ k) = q ∧
      (2 ^ 53 - 1) * ((q + 1) * 2 ^ k) % (2 ^ 53 * 2 ^ k) = (2 ^ 53 - 1 - q) * 2 ^ k := by
    rw [Nat.div_mod_unique (Nat.mul_pos (by norm_num) hTpos)]
    constructor
    · have e3 : (2 ^ 53 - 1 - q) * 2 ^ k + q * 2 ^ k = (2 ^ 53 - 1) * 2 ^ k := by
        rw [← Nat.add_mul]
        congr 1
        omega
      have e4 : 2 ^ 53 * 2 ^ k * q = 2 ^ 53 * (q * 2 ^ k) := by ring
      have e5 : (2 ^ 53 - 1) * (q * 2 ^ k) + q * 2 ^ k = 2 ^ 53 * (q * 2 ^ k) := by
        generalize q * 2 ^ k = qT
        omega
      rw [ha, e4]
      generalize 2 ^ k = T at *
      generalize q * T = qT at *
      generalize (2 ^ 53 - 1 - q) * T = rT at *
      omega
    · have : (2 ^ 53 - 1 - q) * 2 ^ k < 2 ^ 53 * 2 ^ k :=
        Nat.mul_lt_mul_of_pos_right (by omega) hTpos
      exact this
  have hrem : 2 * ((2 ^ 53 - 1 - q) * 2 ^ k) < 2 ^ 53 * 2 ^ k := by
    have : 2 * (2 ^ 53 - 1 - q) < 2 ^ 53 := by omega
    calc 2 * ((2 ^ 53 - 1 - q) * 2 ^ k) = (2 * (2 ^ 53 - 1 - q)) * 2 ^ k := by ring
      _ < 2 ^ 53 * 2 ^ k := Nat.mul_lt_mul_of_pos_right this hTpos
  unfold roundDouble
  rw [hshift, hpow, hdm.1, hdm.2]
  have hnot : ¬ (2 ^ 53 * 2 ^ k < 2 * ((2 ^ 53 - 1 - q) * 2 ^ k) ∨
      (2 ^ 53 * 2 ^ k = 2 * ((2 ^ 53 - 1 - q) * 2 ^ k) ∧ q % 2 = 1)) := by
    rintro (h | ⟨h, _⟩) <;> omega
  rw [if_neg hnot]
  ring

/-- The offset of the query stays below the count: the double product of a
double below one and the count, floored, is less than the count. -/
theorem floor_roundDouble_lt (m e n : Nat) (hm : m < 2 ^ 53) (he : 53 ≤ e) (hn : 1 ≤ n) :
    roundDouble (m * roundDouble n) / 2 ^ e < n := by
  have hepos : 0 < 2 ^ e := Nat.pow_pos (by norm_num)
  rw [Nat.div_lt_iff_lt_mul hepos]
  have hpe : 2 ^ 53 ≤ 2 ^ e := Nat.pow_le_pow_right (by norm_num) he
  have hne : n * 2 ^ 53 ≤ n * 2 ^ e := Nat.mul_le_mul_left _ hpe
  refine lt_of_lt_of_le ?_ hne
  have hR := roundDouble_mul_le (m * roundDouble n)
  have hN := roundDouble_mul_le n
  rcases roundDouble_cases n with hle | ⟨q, k, hup, hlt, hq1, hq2⟩
  · have hX : m * roundDouble n ≤ (2 ^ 53 - 1) * roundDouble n :=
      Nat.mul_le_mul_right _ (by omega)
    generalize roundDouble (m * roundDouble n) = R at *
    generalize m * roundDouble n = X at *
    generalize roundDouble n = N at *
    omega
  · by_cases hm2 : m ≤ 2 ^ 53 - 2
    · have hX : m * roundDouble n ≤ (2 ^ 53 - 2) * roundDouble n :=
        Nat.mul_le_mul_right _ hm2
      generalize roundDouble (m * roundDouble n) = R at *
      generalize m * roundDouble n = X at *
      generalize roundDouble n = N at *
      omega
    · have hmeq : m = 2 ^ 53 - 1 := by omega
      rw [hmeq, hup, roundDouble_top q k hq1 hq2]
      generalize q * 2 ^ k = qT at *
      omega


/-- With a draw in range and at least one matching row, the offset stays
below the count. -/
theorem floorRandomTimes_lt (r : Draw) (n : Nat) (hr : r.inRange) (hn : 1 ≤ n) :
    floorRandomTimes r n < n :=
  floor_roundDouble_lt r.mant r.exp n hr.1 hr.2.1 hn

/-- Where nothing is rounded (the count and the numerator of the product are
below 2^53), the offset is the floor of the exact product of the draw and the
count. -/
theorem floorRandomTimes_exact (r : Draw) (n : Nat) (hn : n < 2 ^ 53)
    (hprod : r.mant * n < 2 ^ 53) :
    floorRandomTimes r n = ⌊((r.mant : ℚ) / (2 : ℚ) ^ r.exp) * (n : ℚ)⌋₊ := by
  unfold floorRandomTimes
  rw [roundDouble_of_lt n hn, roundDouble_of_lt _ hprod]
  have h : ((r.mant : ℚ) / (2 : ℚ) ^ r.exp) * (n : ℚ)
      = ((r.mant * n : ℕ) : ℚ) / ((2 ^ r.exp : ℕ) : ℚ) := by
    push_cast
    ring
  rw [h, Nat.floor_div_eq_div]

/-- What `sampled` returns is the first row of the query result. -/
theorem sampled_eq_some (env : SentenceEnv) (store : Store) (idQuery : String)
    (r : Draw) (t : Training) (h : sampled env store idQuery r = some t) :
    queryRow env store (queryArg idQuery) r = .ok (some t) := by
  unfold sampled at h
  cases hrow : queryRow env store (queryArg idQuery) r with
  | error e => simp [hrow] at h
  | ok o =>
    cases o with
    | none => simp [hrow] at h
    | some u =>
      simp [hrow] at h
      rw [h]

/-- A row produced by the query satisfies the WHERE clause for some filter. -/
theorem queryRow_some (env : SentenceEnv) (store : Store) (arg : Option String)
    (r : Draw) (t : Training) (h : queryRow env store arg r = .ok (some t)) :
    ∃ filter, bindArg env arg = .ok filter ∧
      (selectRows store filter r).head? = some t := by
  unfold queryRow at h
  cases hg : env.getErr with
  | some e => simp [hg] at h
  | none =>
    cases hb : bindArg env arg with
    | error e => simp [hg, hb] at h
    | ok filter =>
      simp [hg, hb] at h
      exact ⟨filter, rfl, h⟩

/-- C3 (as the code has it): every item `handlerAPISentence` returns is a row
of the store with `trainedcount < 3`, the literal bound of the query text,
with or without an id filter and for every draw; the response then carries
that row. So a returned item has `trainedCount < maxAssignments` whenever its
`maxAssignments` is at least 3. -/
theorem sentence_returns_below_three (env : SentenceEnv) (store : Store)
    (idQuery : String) (r : Draw) (t : Training)
    (h : sampled env store idQuery r = some t) :
    t ∈ store ∧ t.trainedcount < 3 ∧
      (3 ≤ t.maxassignments → t.trainedcount < t.maxassignments) ∧
      (handlerAPISentence env store idQuery r).response = some (StatusOK, scanRow t) := by
  have hrow := sampled_eq_some env store idQuery r t h
  obtain ⟨filter, _, hhead⟩ := queryRow_some env store (queryArg idQuery) r t hrow
  obtain ⟨hmem, hwhere⟩ := selectRows_head_mem store filter r t hhead
  have hlt : t.trainedcount < 3 := by
    unfold whereClause at hwhere
    simp only [Bool.and_eq_true, decide_eq_true_eq] at hwhere
    exact hwhere.1
  refine ⟨hmem, hlt, fun h3 => lt_of_lt_of_le hlt h3, ?_⟩
  rw [handlerAPISentence_cases, hrow]

/-- Witness of `sentence_returns_below_three`: the open item of a two-item
store, asked for by id. -/
theorem sentence_returns_below_three_witness :
    sampled (cleanSentenceEnv 2) storeFullAndOpen "2" ⟨0, 53⟩
        = some ⟨2, "ctx-2", "cancel my order", 3, 1⟩ ∧
      (1 : Int) < 3 ∧
      (handlerAPISentence (cleanSentenceEnv 2) storeFullAndOpen "2" ⟨0, 53⟩).response
        = some (StatusOK, ⟨2, "ctx-2", "cancel my order", 3⟩) := by
  have h := sentence_returns_below_three (cleanSentenceEnv 2) storeFullAndOpen "2" ⟨0, 53⟩
    ⟨2, "ctx-2", "cancel my order", 3, 1⟩ (by decide)
  exact ⟨by decide, h.2.1, h.2.2.2⟩

/-- C3 fails as stated: an item with quota 2 that has used both assignments
(`trainedCount = maxAssignments = 2`) is returned, without a filter and with
its id as filter, because the query compares `trainedcount` with 3. -/
theorem sentence_returns_item_at_quota :
    sampled (cleanSentenceEnv 9) storeQuotaTwo "" ⟨0, 53⟩
        = some ⟨9, "ctx-9", "what is the weather", 2, 2⟩ ∧
      sampled (cleanSentenceEnv 9) storeQuotaTwo "9" ⟨0, 53⟩
        = some ⟨9, "ctx-9", "what is the weather", 2, 2⟩ ∧
      (handlerAPISentence (cleanSentenceEnv 9) storeQuotaTwo "" ⟨0, 53⟩).response
        = some (200, ⟨9, "ctx-9", "what is the weather", 2⟩) ∧
      ¬ ((2 : Int) < 2) := by
  decide

/-- C5: when the query yields no row (the database and the id parameter being
in order), `handlerAPISentence` returns no error and responds with status 200
and the zero value of `sent`, in which no field is populated; this is the case
in particular when no row of the store satisfies the WHERE clause. The
response writer is taken to succeed. -/
theorem sentence_no_row_is_ok (env : SentenceEnv) (store : Store)
    (idQuery : String) (r : Draw) (filter : Option Int)
    (hdb : env.getErr = none)
    (harg : bindArg env (queryArg idQuery) = .ok filter)
    (hjson : env.jsonErr = none)
    (hnone : selectRows store filter r = [] ∨ matching store filter = []) :
    handlerAPISentence env store idQuery r
      = ⟨store, none, some (200, ⟨0, "", "", 0⟩)⟩ := by
  have hsel : selectRows store filter r = [] := by
    rcases hnone with h | h
    · exact h
    · unfold selectRows
      rw [h]
      exact List.drop_nil
  have hrow : queryRow env store (queryArg idQuery) r = .ok none := by
    unfold queryRow
    simp [hdb, harg, hsel]
  rw [handlerAPISentence_cases, hrow]
  simp [hjson, StatusOK, Sent.zero]

/-- Witness of `sentence_no_row_is_ok`: the only item of the store has used
its assignments, and it is asked for by id. -/
theorem sentence_no_row_is_ok_witness :
    handlerAPISentence (cleanSentenceEnv 5) storeFull "5" ⟨4503599627370496, 53⟩
      = ⟨storeFull, none, some (200, ⟨0, "", "", 0⟩)⟩ :=
  sentence_no_row_is_ok (cleanSentenceEnv 5) storeFull "5" ⟨4503599627370496, 53⟩ (some 5)
    rfl rfl rfl (Or.inr (by decide))

/-- C6: `handlerAPISentence` leaves the store as it found it, for every
environment, store, id parameter and draw, whether it returns an item, the
empty response or an error. -/
theorem sentence_store_unchanged (env : SentenceEnv) (store : Store)
    (idQuery : String) (r : Draw) :
    (handlerAPISentence env store idQuery r).store = store := by
  rw [handlerAPISentence_cases]
  cases queryRow env store (queryArg idQuery) r with
  | error e =>
    by_cases he : e = GoError.ErrNoRows
    · simp [he]
    · simp [he]
  | ok o =>
    cases o with
    | none => rfl
    | some t => rfl

/-- The rows the WHERE clause keeps, in terms of the columns: rows of the
store with `trainedcount < 3` and, under a filter, with the id of the
filter. -/
theorem mem_matching (store : Store) (filter : Option Int) (u : Training) :
    u ∈ matching store filter ↔
      u ∈ store ∧ u.trainedcount < 3 ∧ ∀ i, filter = some i → u.id = i := by
  unfold matching whereClause
  rw [List.mem_filter]
  cases filter with
  | none => simp
  | some j => simp

/-- The filter the handler queries with, in terms of `c.Query("id")`: none for
the empty string, else the integer the database reads the parameter as. -/
theorem bindArg_queryArg (env : SentenceEnv) (idQuery : String) (filter : Option Int)
    (h : bindArg env (queryArg idQuery) = .ok filter) :
    (filter = none ↔ idQuery.length = 0) ∧
      ∀ i, filter = some i → env.idArg idQuery = .ok i := by
  unfold queryArg at h
  by_cases hq : idQuery.length > 0
  · simp only [hq, if_true, bindArg] at h
    cases hid : env.idArg idQuery with
    | error e => simp [hid] at h
    | ok j =>
      simp only [hid, Except.ok.injEq] at h
      subst h
      refine ⟨⟨fun hnone => (by cases hnone), fun h0 => (by omega)⟩, ?_⟩
      intro i hi
      cases hi
      rfl
  · simp only [hq, if_false, bindArg, Except.ok.injEq] at h
    subst h
    refine ⟨⟨fun _ => (by omega), fun _ => rfl⟩, ?_⟩
    intro i hi
    cases hi

/-- C9 (as the code has it): with `n >= 1` rows matching the WHERE clause
(`trainedcount < 3`, and the id of the filter when one is given) and a double
draw `0 <= r < 1`, the offset `FLOOR(r * n)`, computed in double precision as
the query does, is below `n`; `db.Get` reports no `sql.ErrNoRows`, and the
handler responds with status 200 and the matching row at that offset. The
response differs from the empty response of "no row" exactly when that row has
a non-zero column among id, foreignid, sentence and maxassignments. The
database and the id parameter are taken to be in order. -/
theorem sentence_finds_row (env : SentenceEnv) (store : Store)
    (idQuery : String) (r : Draw) (filter : Option Int)
    (hdb : env.getErr = none)
    (harg : bindArg env (queryArg idQuery) = .ok filter)
    (hr : r.inRange)
    (hn : 1 ≤ (matching store filter).length) :
    ((filter = none ↔ idQuery.length = 0) ∧
      ∀ i, filter = some i → env.idArg idQuery = .ok i) ∧
    (∀ u, u ∈ matching store filter ↔
      u ∈ store ∧ u.trainedcount < 3 ∧ ∀ i, filter = some i → u.id = i) ∧
    floorRandomTimes r (matching store filter).length < (matching store filter).length ∧
    ∃ t : Training,
      (matching store filter)[floorRandomTimes r (matching store filter).length]? = some t ∧
      t ∈ store ∧ t.trainedcount < 3 ∧ (∀ i, filter = some i → t.id = i) ∧
      sampled env store idQuery r = some t ∧
      queryRow env store (queryArg idQuery) r = .ok (some t) ∧
      handlerAPISentence env store idQuery r
        = ⟨store, env.jsonErr,
            some (200, ⟨t.id, t.foreignid, t.sentence, t.maxassignments⟩)⟩ ∧
      ((handlerAPISentence env store idQuery r).response ≠ some (200, ⟨0, "", "", 0⟩) ↔
        ¬ (t.id = 0 ∧ t.foreignid = "" ∧ t.sentence = "" ∧ t.maxassignments = 0)) := by
  have hlt : floorRandomTimes r (matching store filter).length
      < (matching store filter).length :=
    floorRandomTimes_lt r (matching store filter).length hr hn
  obtain ⟨t, ht⟩ : ∃ t, (matching store filter)[floorRandomTimes r
      (matching store filter).length]? = some t :=
    ⟨_, List.getElem?_eq_getElem hlt⟩
  have hhead : (selectRows store filter r).head? = some t := by
    unfold selectRows
    rw [List.head?_drop, ht]
  have hrow : queryRow env store (queryArg idQuery) r = .ok (some t) := by
    unfold queryRow
    simp only [hdb, harg, hhead]
  have hmem : t ∈ matching store filter := List.getElem?_mem ht
  have hcols := (mem_matching store filter t).mp hmem
  have hresp : handlerAPISentence env store idQuery r
      = ⟨store, env.jsonErr, some (200, scanRow t)⟩ := by
    rw [handlerAPISentence_cases, hrow]
    rfl
  refine ⟨bindArg_queryArg env idQuery filter harg, mem_matching store filter,
    hlt, t, ht, hcols.1, hcols.2.1, hcols.2.2, ?_, hrow, hresp, ?_⟩
  · unfold sampled
    rw [hrow]
  · rw [hresp]
    simp only [scanRow, ne_eq, Option.some.injEq, Prod.mk.injEq, true_and, Sent.mk.injEq]

/-- Witness of `sentence_finds_row`: seven rows match, the draw is the double
2573485501354569 / 2^52, whose product with 7 rounds to 4.0, and the matching
row at offset 4 is returned. -/
theorem sentence_finds_row_witness :
    (matching sevenRows none).length = 7 ∧
    floorRandomTimes ⟨5146971002709138, 53⟩ 7 = 4 ∧
    handlerAPISentence (cleanSentenceEnv 0) sevenRows "" ⟨5146971002709138, 53⟩
      = ⟨sevenRows, none, some (200, ⟨16, "ctx-16", "turn on the lights", 3⟩)⟩ := by
  obtain ⟨_, _, _, t, ht, _, _, _, _, _, hresp, _⟩ := sentence_finds_row
    (cleanSentenceEnv 0) sevenRows "" ⟨5146971002709138, 53⟩ none rfl rfl
    (by decide) (by decide)
  have hrow : (matching sevenRows none)[floorRandomTimes ⟨5146971002709138, 53⟩
      (matching sevenRows none).length]? = some ⟨16, "ctx-16", "turn on the lights", 3, 0⟩ := by
    decide
  have ht2 : t = ⟨16, "ctx-16", "turn on the lights", 3, 0⟩ :=
    Option.some.inj (ht.symm.trans hrow)
  rw [ht2] at hresp
  exact ⟨by decide, by decide, hresp⟩

/-- C9 fails as stated in its last clause: the only row of the store matches
the WHERE clause and the draw is in range, so the row is found and returned;
but all its returned columns are zero, and the response is the same as the
response for "no row", which the empty store gives. -/
theorem sentence_found_row_looks_empty :
    (matching storeAllZero none).length = 1 ∧
    Draw.inRange ⟨4503599627370496, 53⟩ ∧
    sampled (cleanSentenceEnv 0) storeAllZero "" ⟨4503599627370496, 53⟩
      = some ⟨0, "", "", 0, 0⟩ ∧
    handlerAPISentence (cleanSentenceEnv 0) storeAllZero "" ⟨4503599627370496, 53⟩
      = ⟨storeAllZero, none, some (200, ⟨0, "", "", 0⟩)⟩ ∧
    (handlerAPISentence (cleanSentenceEnv 0) [] "" ⟨4503599627370496, 53⟩).response
      = some (200, ⟨0, "", "", 0⟩) := by
  decide

/-! ## Properties of `handlerAPITrainSentence` -/

/-- The store a submission leaves, row by row: a row is incremented when the
submission runs the UPDATE on its id, and is left as it is otherwise. -/
theorem trainSentence_store_eq (env : TrainEnv) (store : Store) :
    (handlerAPITrainSentence env store).store
      = store.map (fun t => if reachesUpdate env t.id then incrTrainedcount t else t) := by
  cases hb : env.bind with
  | error e =>
    have hreach : ∀ id, reachesUpdate env id = false := by
      intro id
      simp [reachesUpdate, hb]
    have hstore : (handlerAPITrainSentence env store).store = store := by
      simp [handlerAPITrainSentence, hb]
    simp [hreach, hstore]
  | ok data =>
    cases ht : env.trainErr data.Sentence with
    | some e =>
      have hreach : ∀ id, reachesUpdate env id = false := by
        intro id
        simp [reachesUpdate, hb, ht]
      have hstore : (handlerAPITrainSentence env store).store = store := by
        simp [handlerAPITrainSentence, train, hb, ht]
      simp [hreach, hstore]
    | none =>
      cases he : env.execErr with
      | some e =>
        have hreach : ∀ id, reachesUpdate env id = false := by
          intro id
          simp [reachesUpdate, hb, ht, he]
        have hstore : (handlerAPITrainSentence env store).store = store := by
          simp [handlerAPITrainSentence, train, hb, ht, dbExec, he]
        simp [hreach, hstore]
      | none =>
        have hreach : ∀ id, reachesUpdate env id = decide (id = data.ID) := by
          intro id
          simp [reachesUpdate, hb, ht, he]
        have hstore : (handlerAPITrainSentence env store).store
            = updateRows data.ID store := by
          simp only [handlerAPITrainSentence, train, checkConsensus, hb, ht, dbExec, he]
          cases env.rowsAffectedErr with
          | some e => rfl
          | none =>
            simp only
            split
            · rfl
            · cases env.consensusErr data with
              | some e => rfl
              | none => rfl
        rw [hstore]
        unfold updateRows
        simp [hreach]

/-- The store a sequence of submissions leaves, row by row: the counter of a
row is raised by the number of submissions that run the UPDATE on its id. -/
theorem submitAll_store_eq (envs : List TrainEnv) :
    ∀ store : Store,
      (submitAll envs store).1
        = store.map (fun t => addTrained (updatesFor t.id envs) t) := by
  induction envs with
  | nil =>
    intro store
    simp [submitAll, updatesFor, addTrained]
  | cons env rest ih =>
    intro store
    simp only [submitAll]
    rw [ih, trainSentence_store_eq, List.map_map]
    apply List.map_congr_left
    intro t _
    by_cases hr : reachesUpdate env t.id = true
    · simp only [Function.comp, hr, if_true, incrTrainedcount, addTrained, updatesFor,
        List.filter_cons, List.length_cons]
      congr 1
      push_cast
      ring
    · simp only [Function.comp, hr, if_false, addTrained, updatesFor,
        List.filter_cons]
      rfl

/-- The number of submissions that run the UPDATE on an id is at most the
length of the sequence. -/
theorem updatesFor_le (id : Int) (envs : List TrainEnv) :
    updatesFor id envs ≤ envs.length :=
  List.length_filter_le _ _

/-- C1 (as the code has it), for a store in which every item satisfies
`0 <= trainedCount <= maxAssignments`. A submission increments the rows whose
id is the submitted ID, provided it reaches the UPDATE, and leaves every other
row as it is; the store it leaves satisfies the invariant exactly when every
row it increments was below its quota. A sequence of submissions raises the
counter of each row by the number of submissions that reach the UPDATE with
its id; the store it leaves satisfies the invariant exactly when, for every
row, that number is at most `maxAssignments - trainedCount`. In every case
`0 <= trainedCount <= maxAssignments + n` after `n` submissions. -/
theorem trainSentence_counter_growth (store : Store) (h : CounterBound store) :
    (∀ (env : TrainEnv) (id : Int), reachesUpdate env id = true →
      ∃ data, env.bind = .ok data ∧ data.ID = id ∧
        env.trainErr data.Sentence = none ∧ env.execErr = none) ∧
    (∀ env : TrainEnv, (handlerAPITrainSentence env store).store
      = store.map (fun t => if reachesUpdate env t.id then incrTrainedcount t else t)) ∧
    (∀ env : TrainEnv, CounterBound (handlerAPITrainSentence env store).store ↔
      ∀ t ∈ store, reachesUpdate env t.id = true → t.trainedcount < t.maxassignments) ∧
    (∀ envs : List TrainEnv, (submitAll envs store).1
      = store.map (fun t => addTrained (updatesFor t.id envs) t)) ∧
    (∀ envs : List TrainEnv, CounterBound (submitAll envs store).1 ↔
      ∀ t ∈ store, t.trainedcount + updatesFor t.id envs ≤ t.maxassignments) ∧
    (∀ (env : TrainEnv), ∀ t ∈ (handlerAPITrainSentence env store).store,
      0 ≤ t.trainedcount ∧ t.trainedcount ≤ t.maxassignments + 1) ∧
    (∀ (envs : List TrainEnv), ∀ t ∈ (submitAll envs store).1,
      0 ≤ t.trainedcount ∧ t.trainedcount ≤ t.maxassignments + envs.length) := by
  refine ⟨?_, fun env => trainSentence_store_eq env store, ?_,
    fun envs => submitAll_store_eq envs store, ?_, ?_, ?_⟩
  · intro env id hreach
    unfold reachesUpdate at hreach
    cases hb : env.bind with
    | error e => simp [hb] at hreach
    | ok data =>
      simp only [hb, Bool.and_eq_true, decide_eq_true_eq, Option.isNone_iff_eq_none] at hreach
      exact ⟨data, rfl, hreach.1.1.symm, hreach.1.2, hreach.2⟩
  · intro env
    rw [trainSentence_store_eq]
    unfold CounterBound
    constructor
    · intro hafter t ht hreach
      have := hafter _ (List.mem_map_of_mem _ ht)
      simp only [hreach, if_true, incrTrainedcount] at this
      omega
    · intro hbelow u hu
      obtain ⟨t, ht, rfl⟩ := List.mem_map.mp hu
      have hb := h t ht
      by_cases hreach : reachesUpdate env t.id = true
      · have := hbelow t ht hreach
        simp only [hreach, if_true, incrTrainedcount]
        omega
      · simp only [hreach, if_false]
        exact hb
  · intro envs
    rw [submitAll_store_eq]
    unfold CounterBound
    constructor
    · intro hafter t ht
      have := hafter _ (List.mem_map_of_mem _ ht)
      simp only [addTrained] at this
      exact this.2
    · intro hroom u hu
      obtain ⟨t, ht, rfl⟩ := List.mem_map.mp hu
      have hb := h t ht
      have := hroom t ht
      simp only [addTrained]
      omega
  · intro env u hu
    rw [trainSentence_store_eq] at hu
    obtain ⟨t, ht, rfl⟩ := List.mem_map.mp hu
    have hb := h t ht
    by_cases hreach : reachesUpdate env t.id = true
    · simp only [hreach, if_true, incrTrainedcount]
      omega
    · have hf : reachesUpdate env t.id = false := by simpa using hreach
      rw [hf]
      simp only [Bool.false_eq_true, if_false]
      omega
  · intro envs u hu
    rw [submitAll_store_eq] at hu
    obtain ⟨t, ht, rfl⟩ := List.mem_map.mp hu
    have hb := h t ht
    have hle := updatesFor_le t.id envs
    simp only [addTrained]
    omega

/-- Witness of `trainSentence_counter_growth`: a submission for the open
item 2 of a two-item store keeps the invariant, and two such submissions keep
it as well. -/
theorem trainSentence_counter_growth_witness :
    CounterBound storeFullAndOpen ∧
    CounterBound
      (handlerAPITrainSentence (cleanEnv 2 "cancel_order") storeFullAndOpen).store ∧
    CounterBound
      (submitAll [cleanEnv 2 "cancel_order", cleanEnv 2 "cancel_order"]
        storeFullAndOpen).1 :=
  ⟨by decide,
   ((trainSentence_counter_growth storeFullAndOpen (by decide)).2.2.1
     (cleanEnv 2 "cancel_order")).mpr (by decide),
   ((trainSentence_counter_growth storeFullAndOpen (by decide)).2.2.2.2.1
     [cleanEnv 2 "cancel_order", cleanEnv 2 "cancel_order"]).mpr (by decide)⟩

/-- C1 fails as stated: the store satisfies the invariant, item 1 has used its
three assignments, and a submission for item 1 leaves it with
`trainedCount = 4 > 3 = maxAssignments`. -/
theorem counterBound_not_preserved :
    CounterBound storeFullAndOpen ∧
    (handlerAPITrainSentence (cleanEnv 1 "book_flight") storeFullAndOpen).store
      = [⟨1, "ctx-1", "book a flight to Boston", 3, 4⟩,
         ⟨2, "ctx-2", "cancel my order", 3, 1⟩] ∧
    ¬ CounterBound
      (handlerAPITrainSentence (cleanEnv 1 "book_flight") storeFullAndOpen).store := by
  decide

/-- The UPDATE affects no row exactly when no row has the id. -/
theorem rowsAffected_eq_zero (store : Store) (id : Int) :
    (store.filter (fun t => decide (t.id = id))).length = 0 ↔ ∀ t ∈ store, t.id ≠ id := by
  rw [List.length_eq_zero, List.filter_eq_nil_iff]
  constructor
  · intro h t ht
    simpa using h t ht
  · intro h t ht
    simpa using h t ht

/-- The UPDATE leaves a table without the id as it is. -/
theorem updateRows_of_absent (store : Store) (id : Int) (h : ∀ t ∈ store, t.id ≠ id) :
    updateRows id store = store := by
  unfold updateRows
  induction store with
  | nil => rfl
  | cons a rest ih =>
    have ha : a.id ≠ id := h a (List.mem_cons_self a rest)
    have hrest : ∀ t ∈ rest, t.id ≠ id := fun t ht => h t (List.mem_cons_of_mem a ht)
    simp only [List.map_cons, ha, if_false, ih hrest]

/-- A submission whose collaborators all succeed, on a one-row table with the
submitted id. -/
theorem trainSentence_clean_single (t : Training) (sentence : String) :
    handlerAPITrainSentence (cleanEnv t.id sentence) [t]
      = ⟨[incrTrainedcount t], none,
          [.train sentence, .exec t.id, .rowsAffected,
           .checkConsensus ⟨t.id, sentence⟩, .json StatusOK], some StatusOK⟩ := by
  simp [handlerAPITrainSentence, train, checkConsensus, cleanEnv, dbExec, updateRows]

/-- Successive submissions whose collaborators all succeed, on a one-row table
with the submitted id: each is accepted and each increments the counter. -/
theorem submitAll_clean (sentence : String) (n : Nat) :
    ∀ t : Training,
      submitAll (List.replicate n (cleanEnv t.id sentence)) [t]
        = ([{ t with trainedcount := t.trainedcount + n }], List.replicate n none) := by
  induction n with
  | zero =>
    intro t
    simp [submitAll]
  | succ k ih =>
    intro t
    have hstep := trainSentence_clean_single t sentence
    have hnext := ih (incrTrainedcount t)
    simp only [incrTrainedcount] at hnext hstep
    simp only [List.replicate_succ, submitAll, hstep, hnext]
    simp only [Prod.mk.injEq, List.cons.injEq, and_true, true_and]
    congr 1
    push_cast
    ring

/-- C2 (as the code has it), the request being bound and `train` and the
database succeeding: (1) when no item has the submitted id, the submission is
rejected with `sql.ErrNoRows`, the store is unchanged and `checkConsensus` is
not called; (2) when an item has the submitted id, whatever its counter, also
`trainedCount = maxAssignments`, its counter is incremented, `checkConsensus`
is called, and the handler returns the error of `checkConsensus` or else the
result of the response writer; (3) on a one-item store, `n` successive
submissions whose collaborators succeed are each accepted and leave the
counter `n` higher, for every `n` and every quota. -/
theorem trainSentence_rejects_unknown_id_only :
    (∀ (env : TrainEnv) (store : Store) (data : TrainingData),
      env.bind = .ok data → env.trainErr data.Sentence = none →
      env.execErr = none → env.rowsAffectedErr = none →
      (∀ t ∈ store, t.id ≠ data.ID) →
      handlerAPITrainSentence env store
        = ⟨store, some GoError.ErrNoRows,
            [.train data.Sentence, .exec data.ID, .rowsAffected], none⟩) ∧
    (∀ (env : TrainEnv) (store : Store) (data : TrainingData),
      env.bind = .ok data → env.trainErr data.Sentence = none →
      env.execErr = none → env.rowsAffectedErr = none →
      (∃ t ∈ store, t.id = data.ID) →
      (handlerAPITrainSentence env store).store = updateRows data.ID store ∧
      (handlerAPITrainSentence env store).err
        = (match env.consensusErr data with
           | some e => some e
           | none => env.jsonErr) ∧
      Call.checkConsensus data ∈ (handlerAPITrainSentence env store).calls) ∧
    (∀ (t : Training) (sentence : String) (n : Nat),
      submitAll (List.replicate n (cleanEnv t.id sentence)) [t]
        = ([{ t with trainedcount := t.trainedcount + n }], List.replicate n none)) := by
  refine ⟨?_, ?_, fun t sentence n => submitAll_clean sentence n t⟩
  · intro env store data hb ht he hr habsent
    have hzero := (rowsAffected_eq_zero store data.ID).mpr habsent
    have hsame := updateRows_of_absent store data.ID habsent
    simp [handlerAPITrainSentence, train, hb, ht, dbExec, he, hr, hzero, hsame]
  · intro env store data hb ht he hr hpresent
    have hpos : (store.filter (fun t => decide (t.id = data.ID))).length ≠ 0 := by
      intro hzero
      obtain ⟨t, hmem, hid⟩ := hpresent
      exact (rowsAffected_eq_zero store data.ID).mp hzero t hmem hid
    cases hc : env.consensusErr data with
    | some e =>
      simp [handlerAPITrainSentence, train, checkConsensus, hb, ht, dbExec, he, hr, hpos, hc]
    | none =>
      simp [handlerAPITrainSentence, train, checkConsensus, hb, ht, dbExec, he, hr, hpos, hc]

/-- Witness of `trainSentence_rejects_unknown_id_only`: a submission for the
id 42, which the store does not hold. -/
theorem trainSentence_rejects_unknown_id_only_witness :
    handlerAPITrainSentence (cleanEnv 42 "play_music") storeFullAndOpen
      = ⟨storeFullAndOpen, some GoError.ErrNoRows,
          [.train "play_music", .exec 42, .rowsAffected], none⟩ :=
  trainSentence_rejects_unknown_id_only.1 (cleanEnv 42 "play_music") storeFullAndOpen
    ⟨42, "play_music"⟩ rfl rfl rfl rfl (by decide)

/-- C2 fails as stated: a submission for an item with
`trainedCount = maxAssignments = 3` is accepted (no error, status 200) and
leaves the counter at 4; the counter moves to 4 also when `checkConsensus`
returns an error; and of four successive submissions on a fresh item with
quota 3, all four are accepted. -/
theorem quota_exhausted_not_rejected :
    handlerAPITrainSentence (cleanEnv 5 "order_pizza") storeFull
      = ⟨[⟨5, "ctx-5", "order a pizza", 3, 4⟩], none,
          [.train "order_pizza", .exec 5, .rowsAffected,
           .checkConsensus ⟨5, "order_pizza"⟩, .json 200], some 200⟩ ∧
    (handlerAPITrainSentence (consensusFailsEnv 5 "order_pizza") storeFull).store
      = [⟨5, "ctx-5", "order a pizza", 3, 4⟩] ∧
    submitAll (List.replicate 4 (cleanEnv 5 "order_pizza")) storeFresh
      = ([⟨5, "ctx-5", "order a pizza", 3, 4⟩], [none, none, none, none]) := by
  decide

/-- C4: when `train` returns an error, `handlerAPITrainSentence` returns that
error, leaves the store as it found it, and its only call is the call of
`train`: no `db.Exec`, no `checkConsensus`, no response. -/
theorem trainSentence_fails_closed (env : TrainEnv) (store : Store)
    (data : TrainingData) (e : GoError)
    (hbind : env.bind = .ok data) (htrain : env.trainErr data.Sentence = some e) :
    (handlerAPITrainSentence env store).err = some e ∧
    (handlerAPITrainSentence env store).store = store ∧
    (handlerAPITrainSentence env store).calls = [.train data.Sentence] ∧
    (∀ c ∈ (handlerAPITrainSentence env store).calls,
      c.isCheckConsensus = false ∧ c.isExec = false) ∧
    (handlerAPITrainSentence env store).response = none := by
  have h : handlerAPITrainSentence env store
      = ⟨store, some e, [.train data.Sentence], none⟩ := by
    simp [handlerAPITrainSentence, train, hbind, htrain]
  rw [h]
  refine ⟨rfl, rfl, rfl, ?_, rfl⟩
  intro c hc
  simp only [List.mem_singleton] at hc
  rw [hc]
  exact ⟨rfl, rfl⟩

/-- Witness of `trainSentence_fails_closed`: the classifier rejects the
example of a submission for the open item 2. -/
theorem trainSentence_fails_closed_witness :
    (handlerAPITrainSentence (trainFailsEnv 2 "cancel_order") storeFullAndOpen).err
      = some (errorsNew "classifier is not ready") ∧
    (handlerAPITrainSentence (trainFailsEnv 2 "cancel_order") storeFullAndOpen).store
      = storeFullAndOpen :=
  have h := trainSentence_fails_closed (trainFailsEnv 2 "cancel_order") storeFullAndOpen
    ⟨2, "cancel_order"⟩ (errorsNew "classifier is not ready") rfl rfl
  ⟨h.1, h.2.1⟩

/-- C7, the code at rejected submissions. For an id the store does not hold,
`handlerAPITrainSentence` returns `sql.ErrNoRows` itself: its message is the
plain text of the sentinel, which is not a JSON object with a Msg field and is
not the message `jsonError` gives. A failure of `train` is returned as it is
in the same way. -/
theorem trainSentence_error_not_wrapped :
    (handlerAPITrainSentence (cleanEnv 77 "turn_on_lights") storeFresh).err
      = some GoError.ErrNoRows ∧
    GoError.ErrNoRows.Error = "sql: no rows in result set" ∧
    decodeMsgObject GoError.ErrNoRows.Error = none ∧
    (jsonError GoError.ErrNoRows).Error = "\x7b\"Msg\":\"sql: no rows in result set\"\x7d" ∧
    (handlerAPITrainSentence (cleanEnv 77 "turn_on_lights") storeFresh).err
      ≠ some (jsonError GoError.ErrNoRows) ∧
    (handlerAPITrainSentence (trainFailsEnv 5 "order_pizza") storeFresh).err
      = some (errorsNew "classifier is not ready") ∧
    decodeMsgObject (errorsNew "classifier is not ready").Error = none := by
  decide

/-- C8, the code at a message with double quotes: `jsonError` puts the message
between the quotes as it is, so the text it builds ends the string at the
first inner quote and is not a well-formed JSON object. -/
theorem jsonError_quoted_message_not_json :
    (jsonError (errorsNew duplicateKeyMsg)).Error
      = "\x7b\"Msg\":\"pq: duplicate key value violates unique constraint \"users_email_key\"\"\x7d" ∧
    decodeMsgObject (jsonError (errorsNew duplicateKeyMsg)).Error = none ∧
    decodeMsgObject (jsonError (errorsNew "a\\")).Error = none ∧
    decodeMsgObject (jsonError (errorsNew "Sorry, that email is taken.")).Error
      = some "Sorry, that email is taken." := by
  decide

/-! ## Properties of `validatePhone` -/

/-- The condition of line 402 never reads out of range, and its value is the
condition as written. -/
theorem cond11_eq (s : GoString) :
    cond11 s = some (decide (s.length = 11 ∧ s[0]? ≠ some '1'.toUInt8)) := by
  unfold cond11 byteAt
  by_cases h : s.length = 11
  · cases s with
    | nil => simp at h
    | cons b0 rest =>
      by_cases hb : b0 = '1'.toUInt8
      · simp [h, hb]
      · simp [h, hb]
  · simp [h]

/-- The condition of line 406 never reads out of range, and its value is the
condition as written. -/
theorem cond12_eq (s : GoString) :
    cond12 s = some (decide (s.length = 12 ∧ s[0]? = some '+'.toUInt8 ∧
      s[1]? ≠ some '1'.toUInt8)) := by
  unfold cond12 byteAt
  by_cases h : s.length = 12
  · cases s with
    | nil => simp at h
    | cons b0 rest =>
      cases rest with
      | nil => simp at h
      | cons b1 rest2 =>
        have h2 : rest2.length = 10 := by
          simp only [List.length_cons] at h
          omega
        by_cases hp : b0 = '+'.toUInt8
        · by_cases hb : b1 = '1'.toUInt8
          · simp [h2, hp, hb]
          · simp [h2, hp, hb]
        · simp [h2, hp]
  · simp [h]

/-- C10: `validatePhone` never panics on an index; it returns nil exactly when
the length is between 10 and 20 bytes, `phoneRegex` matches, and neither
country test applies; and when it rejects, the message is the "valid U.S.
number" one exactly when the length or regex test fails and the "only serves
U.S. customers" one exactly otherwise. `phoneRegex` is any predicate. -/
theorem validatePhone_spec (phoneRegex : GoString → Bool) (s : GoString) :
    ∃ res : Option GoError, validatePhone phoneRegex s = some res ∧
      (res = none ↔
        (10 ≤ s.length ∧ s.length ≤ 20 ∧ phoneRegex s = true ∧
          ¬ (s.length = 11 ∧ s[0]? ≠ some '1'.toUInt8) ∧
          ¬ (s.length = 12 ∧ s[0]? = some '+'.toUInt8 ∧ s[1]? ≠ some '1'.toUInt8))) ∧
      (∀ e, res = some e →
        (e.Error = "Your phone must be a valid U.S. number with the area code." ↔
          (s.length < 10 ∨ 20 < s.length ∨ phoneRegex s = false)) ∧
        (e.Error = "Sorry, Ava only serves U.S. customers for now." ↔
          ¬ (s.length < 10 ∨ 20 < s.length ∨ phoneRegex s = false))) := by
  have hne : msgValidNumber ≠ msgOnlyUS := by decide
  unfold validatePhone
  rw [cond11_eq, cond12_eq]
  by_cases hfirst : (s.length < 10 ∨ 20 < s.length ∨ phoneRegex s = false)
  · have hcond : (decide (s.length < 10) || decide (s.length > 20) || !phoneRegex s) = true := by
      rcases hfirst with h | h | h
      · simp [h]
      · simp [h]
      · simp [h]
    refine ⟨some (errorsNew msgValidNumber), by rw [if_pos hcond], ?_, ?_⟩
    · constructor
      · intro h; cases h
      · rintro ⟨h1, h2, h3, _⟩
        rcases hfirst with h | h | h
        · omega
        · omega
        · rw [h3] at h; cases h
    · intro e he
      cases he
      exact ⟨⟨fun _ => hfirst, fun _ => rfl⟩,
        ⟨fun h => absurd h hne, fun h => absurd hfirst h⟩⟩
  · have hcond : ¬ ((decide (s.length < 10) || decide (s.length > 20) || !phoneRegex s) = true) := by
      intro h
      apply hfirst
      simp only [Bool.or_eq_true, decide_eq_true_eq, Bool.not_eq_true'] at h
      rcases h with (h | h) | h
      · exact Or.inl h
      · exact Or.inr (Or.inl h)
      · exact Or.inr (Or.inr h)
    have hlen1 : 10 ≤ s.length := by
      by_contra h
      exact hfirst (Or.inl (by omega))
    have hlen2 : s.length ≤ 20 := by
      by_contra h
      exact hfirst (Or.inr (Or.inl (by omega)))
    have hre : phoneRegex s = true := by
      cases hp : phoneRegex s with
      | true => rfl
      | false => exact absurd (Or.inr (Or.inr hp)) hfirst
    rw [if_neg hcond]
    by_cases h11 : (s.length = 11 ∧ s[0]? ≠ some '1'.toUInt8)
    · refine ⟨some (errorsNew msgOnlyUS), by rw [decide_eq_true h11]; rfl, ?_, ?_⟩
      · constructor
        · intro h; cases h
        · rintro ⟨_, _, _, h, _⟩
          exact absurd h11 h
      · intro e he
        cases he
        exact ⟨⟨fun h => absurd h.symm hne, fun h => absurd h hfirst⟩,
          ⟨fun _ => hfirst, fun _ => rfl⟩⟩
    · by_cases h12 : (s.length = 12 ∧ s[0]? = some '+'.toUInt8 ∧ s[1]? ≠ some '1'.toUInt8)
      · refine ⟨some (errorsNew msgOnlyUS),
          by rw [decide_eq_false h11, decide_eq_true h12]; rfl, ?_, ?_⟩
        · constructor
          · intro h; cases h
          · rintro ⟨_, _, _, _, h⟩
            exact absurd h12 h
        · intro e he
          cases he
          exact ⟨⟨fun h => absurd h.symm hne, fun h => absurd h hfirst⟩,
            ⟨fun _ => hfirst, fun _ => rfl⟩⟩
      · refine ⟨none, by rw [decide_eq_false h11, decide_eq_false h12]; rfl, ?_, ?_⟩
        · constructor
          · intro _
            exact ⟨hlen1, hlen2, hre, h11, h12⟩
          · intro _
            rfl
        · intro e he
          cases he

/-! ## Where `jsonError` does build a JSON object -/

/-- A run of characters free of quotes, backslashes and control characters is
read back as it is, up to the closing quote. -/
theorem readString_plain (cs rest : List Char)
    (h : ∀ c ∈ cs, c ≠ '"' ∧ c ≠ '\\' ∧ 32 ≤ c.toNat) :
    readString .plain (cs ++ '"' :: rest) = some (cs, rest) := by
  induction cs with
  | nil => simp [readString]
  | cons c tail ih =>
    have hc := h c (List.mem_cons_self c tail)
    have htail : ∀ d ∈ tail, d ≠ '"' ∧ d ≠ '\\' ∧ 32 ≤ d.toNat :=
      fun d hd => h d (List.mem_cons_of_mem c hd)
    have hlt : ¬ c.toNat < 32 := by omega
    simp [readString, hc.1, hc.2.1, hlt, ih htail]

/-- For a message free of double quotes, backslashes and control characters,
the text `jsonError` builds is a JSON object whose only member, Msg, decodes to
the message. -/
theorem jsonError_plain_message (e : GoError)
    (h : ∀ c ∈ e.Error.data, c ≠ '"' ∧ c ≠ '\\' ∧ 32 ≤ c.toNat) :
    decodeMsgObject (jsonError e).Error = some e.Error := by
  have hdata : (jsonError e).Error.data
      = '\x7b' :: '"' :: 'M' :: 's' :: 'g' :: '"' :: ':' :: '"'
          :: (e.Error.data ++ ['"', '\x7d']) := by
    simp [jsonError, errorsNew, GoError.Error, String.data_append]
  have hkey : ∀ c ∈ ['M', 's', 'g'], c ≠ '"' ∧ c ≠ '\\' ∧ 32 ≤ c.toNat := by decide
  have h1 : ∀ tail : List Char, expectChar '\x7b' ('\x7b' :: tail) = some tail := by
    intro tail
    simp [expectChar, skipWs, isJsonWs]
  have h2 : ∀ tail : List Char, expectChar '"' ('"' :: tail) = some tail := by
    intro tail
    simp [expectChar, skipWs, isJsonWs]
  have h3 := readString_plain ['M', 's', 'g']
    (':' :: '"' :: (e.Error.data ++ ['"', '\x7d'])) hkey
  have h4 : ∀ tail : List Char, expectChar ':' (':' :: tail) = some tail := by
    intro tail
    simp [expectChar, skipWs, isJsonWs]
  have h6 := readString_plain e.Error.data ['\x7d'] h
  have h7 : expectChar '\x7d' ['\x7d'] = some [] := by
    simp [expectChar, skipWs, isJsonWs]
  simp only [List.cons_append, List.nil_append] at h3
  unfold decodeMsgObject
  rw [hdata, h1]
  simp only [Option.some_bind]
  rw [h2]
  simp only [Option.some_bind]
  rw [h3]
  simp only [Option.some_bind]
  rw [if_neg (by decide), h4]
  simp only [Option.some_bind]
  rw [h2]
  simp only [Option.some_bind]
  rw [h6]
  simp only [Option.some_bind]
  rw [h7]
  simp only [Option.some_bind]
  rw [if_pos (by rfl)]

end Abot

